/-
  Verification of the Attend speech-turn pipeline.

  Shallow embedding of the core of the repository:
  * `RecordingManager._continuous_recording` (src/services/manage_recording.py),
    the per-frame VAD state machine with pipeline lifecycle tracking,
  * `RecordingManager.save_speech` / `RecordingManager.reset`,
  * `InteractionManager._handle_transcription` and `_handle_false_end`
    (src/services/interaction/manager.py), the streaming response assembler,
  * `AudioProcessor` (src/services/interaction/audio.py), the playback queue.

  Timestamps are modelled as integers (the source uses `time.time()` floats;
  only order and differences matter to the logic).  External collaborators
  (the Silero VAD, the STT/LLM/TTS network calls, `nltk.sent_tokenize`, and
  the audio device layer) are inputs of the model: the VAD classification and
  the chunk timestamps are inputs of each state-machine step, the LLM stream
  is a list of deltas, sentence tokenization is a function parameter `tok`,
  TTS is modelled as the identity on the sentence (synthesis succeeds), and
  playback errors are driven by an explicit error oracle.
-/
import Mathlib

namespace Attend

/-- Pipeline validity states (`self.pipeline_state` in the source takes the
Python values `None`, `'false'`, `'confirmed'`, `'cancelled'`; `None` is
modelled by `Option.none` around this type). -/
inductive PipelineState where
  | pfalse
  | confirmed
  | cancelled
deriving DecidableEq, Repr

/-- One VAD classification for a frame: `None`, a dict containing `'start'`,
a dict containing `'end'`, or a dict containing both keys. -/
inductive VadInput where
  | vnone
  | vstart
  | vend
  | vboth
deriving DecidableEq, Repr

/-- The events of `services/event_system.py` emitted by the state machine. -/
inductive SpeechEv where
  | speechStartPotential
  | speechStarted
  | speechEndPotential
  | speechEnded
  | falseStart
  | falseEnd
  | newTranscription
deriving DecidableEq, Repr

/-- Models `'start' in vad_result` for a dict result (`False` for `None`). -/
def memStart : VadInput → Bool
  | .vstart => true
  | .vboth => true
  | _ => false

/-- Models `'end' in vad_result` for a dict result (`False` for `None`). -/
def memEnd : VadInput → Bool
  | .vend => true
  | .vboth => true
  | _ => false

/-- Models `vad_result is None`. -/
def vadIsNone : VadInput → Bool
  | .vnone => true
  | _ => false

/-- Configuration values read from `attend_config.yaml` that the state
machine and `save_speech` use. -/
structure RMConfig where
  speech_start_threshold : Int
  speech_end_threshold : Int
  rate : Int
  chunk : Int
  buffer_size : Nat
deriving DecidableEq, Repr

/-- The mutable fields of `RecordingManager` that the modelled methods read
or write.  `audio_buffer` holds opaque chunk data (a `Nat` code per chunk);
`audio_buffer` and `chunk_times` are the two parallel bounded deques. -/
structure RMState where
  audio_buffer : List Nat
  chunk_times : List Int
  speech_start_time : Option Int
  speech_end_time : Option Int
  speech_start_potential : Bool
  speech_end_potential : Bool
  speech_started : Bool
  speech_detected : Bool
  speech_ended : Bool
  latest_transcription : Option String
  current_pipeline_id : Option Int
  pipeline_state : Option PipelineState
  pipeline_processing : Bool
deriving DecidableEq, Repr

/-- The state `RecordingManager.__init__` establishes. -/
def initRMState : RMState where
  audio_buffer := []
  chunk_times := []
  speech_start_time := none
  speech_end_time := none
  speech_start_potential := false
  speech_end_potential := false
  speech_started := false
  speech_detected := false
  speech_ended := false
  latest_transcription := none
  current_pipeline_id := none
  pipeline_state := none
  pipeline_processing := false

/-- Python truthiness of the float-or-`None` field `current_pipeline_id`
(`None` and `0.0` are falsy). -/
def idTruthy (o : Option Int) : Bool :=
  o.getD 0 ≠ 0

/-- Models `deque(maxlen=n).append`: append on the right, evict on the left when
the bound is exceeded. -/
def appendBounded (maxlen : Nat) (xs : List α) (x : α) : List α :=
  let ys := xs ++ [x]
  if maxlen < ys.length then ys.drop (ys.length - maxlen) else ys

/-- One iteration of the `while` body of
`RecordingManager._continuous_recording`: append the freshly read chunk and
its timestamp to the bounded buffers, then run the VAD state-machine
`if`/`elif` chain on the classification of that chunk.  `data` is the chunk
read from the input stream, `vad` the classification, `t` the `current_time`
of the iteration (the source's second `time.time()` call used as the new
pipeline id on the end-potential branch is modelled by the same tick time
`t`).  Returns the new state and the events emitted during the iteration. -/
def rmStep (cfg : RMConfig) (s : RMState) (data : Nat) (vad : VadInput) (t : Int) :
    RMState × List SpeechEv :=
  let s := { s with
    audio_buffer := appendBounded cfg.buffer_size s.audio_buffer data,
    chunk_times := appendBounded cfg.buffer_size s.chunk_times t }
  -- Handle potential start
  if memStart vad ∧ ¬s.speech_started then
    let s := { s with
      speech_start_time := some t,
      speech_start_potential := true,
      speech_end_potential := false }
    -- Only reset pipeline tracking if there is no confirmed pipeline still processing
    let s :=
      if ¬(idTruthy s.current_pipeline_id ∧ s.pipeline_state = some .confirmed ∧
          s.pipeline_processing) then
        { s with
            current_pipeline_id := none,
            pipeline_state := none,
            pipeline_processing := false }
      else s
    (s, [.speechStartPotential])
  -- Speech started
  else if vadIsNone vad ∧ s.speech_start_potential ∧ ¬s.speech_started then
    match s.speech_start_time with
    | some st =>
      if cfg.speech_start_threshold ≤ t - st then
        ({ s with
            speech_started := true,
            speech_start_potential := false,
            speech_detected := true }, [.speechStarted])
      else (s, [])
    | none => (s, [])  -- unreachable: start_potential implies a recorded start time
  -- Handle potential end
  else if memEnd vad ∧ s.speech_started then
    if ¬s.speech_end_potential then
      ({ s with
          speech_end_time := some t,
          speech_end_potential := true,
          current_pipeline_id := some t,
          pipeline_state := none,
          pipeline_processing := false }, [.speechEndPotential])
    else (s, [])
  -- Handle speech ended
  else if vadIsNone vad ∧ s.speech_started ∧ s.speech_end_potential then
    match s.speech_end_time with
    | some et =>
      if cfg.speech_end_threshold ≤ t - et then
        ({ s with
            speech_started := false,
            speech_end_potential := false,
            pipeline_state :=
              if idTruthy s.current_pipeline_id then some .confirmed
              else s.pipeline_state,
            speech_ended := true }, [.speechEnded])
      else (s, [])
    | none => (s, [])  -- unreachable: end_potential implies a recorded end time
  -- Handle false start
  else if memEnd vad ∧ s.speech_start_potential ∧ ¬s.speech_started then
    ({ s with
        speech_start_potential := false,
        speech_start_time := none }, [.falseStart])
  -- Handle false end
  else if memStart vad ∧ s.speech_started ∧ s.speech_end_potential then
    let s := { s with
      speech_end_potential := false,
      speech_end_time := none }
    let s :=
      if idTruthy s.current_pipeline_id ∧ ¬(s.pipeline_state = some .confirmed) then
        { s with pipeline_state := some .pfalse }
      else s
    (s, [.falseEnd])
  else (s, [])

/-- Index of the first element of a list satisfying `p`, scanned left to
right (the `for ... break` searches of `save_speech`). -/
def firstIdxFrom (p : Int → Bool) : List Int → Option Nat
  | [] => none
  | t :: ts => if p t then some 0 else (firstIdxFrom p ts).map (· + 1)

/-- The back-off of `save_speech`:
`int((self.speech_end_threshold * self.rate) // self.chunk)` (Python floor
division). -/
def backFrames (cfg : RMConfig) : Nat :=
  ((cfg.speech_end_threshold * cfg.rate).fdiv cfg.chunk).toNat

/-- Models `start_idx` of `save_speech`: index of the first chunk whose timestamp is
`≥ start_time`, backed off by `back` frames and clamped at `0`
(`max(0, i - back)` is truncated subtraction); `0` when no timestamp
reaches `start_time`. -/
def saveStartIdx (times : List Int) (startTime : Int) (back : Nat) : Nat :=
  match firstIdxFrom (fun t => decide (startTime ≤ t)) times with
  | some i => i - back
  | none => 0

/-- Models `end_idx` of `save_speech`: scanning from `start_idx`, one past the first
chunk whose timestamp is `> end_time` (clamped at the length); the length
when no such chunk exists. -/
def saveEndIdx (times : List Int) (endTime : Int) (startIdx : Nat) : Nat :=
  match firstIdxFrom (fun t => decide (endTime < t)) (times.drop startIdx) with
  | some j => min times.length (startIdx + j + 1)
  | none => times.length

/-- Python slice `buf[si:ei]`. -/
def pySlice (buf : List α) (si ei : Nat) : List α :=
  (buf.drop si).take (ei - si)

/-- Models `RecordingManager.save_speech` without the file I/O: mark the pipeline as
processing when a pipeline id is set, resolve the segment's time bounds
(`end_time` falls back to the current wall clock when `speech_end_time` is
`None` or `0.0`, by Python truthiness), compute the slice indices over
`chunk_times`, and extract the corresponding slice of `audio_buffer`.
Returns the updated state and the extracted chunk data. -/
def save_speech (cfg : RMConfig) (s : RMState) (now : Int) : RMState × List Nat :=
  let s' := if idTruthy s.current_pipeline_id then { s with pipeline_processing := true } else s
  let startTime := s.speech_start_time.getD 0
  let endTime :=
    match s.speech_end_time with
    | some e => if e = 0 then now else e
    | none => now
  let si := saveStartIdx s.chunk_times startTime (backFrames cfg)
  let ei := saveEndIdx s.chunk_times endTime si
  (s', pySlice s.audio_buffer si ei)

/-- The timestamps of the frames `save_speech` extracts (the same index
range applied to the parallel `chunk_times` deque). -/
def saveSliceTimes (times : List Int) (startTime endTime : Int) (back : Nat) : List Int :=
  pySlice times (saveStartIdx times startTime back)
    (saveEndIdx times endTime (saveStartIdx times startTime back))

/-- Models `RecordingManager.reset`: clear the speech-tracking fields, preserve the
buffers, the last transcription and the pipeline fields.  (The source also
calls `self.vad_iterator.reset_states()`, which resets the external VAD
collaborator, not a field of this state.) -/
def rmReset (s : RMState) : RMState :=
  { s with
      speech_start_time := none,
      speech_end_time := none,
      speech_start_potential := false,
      speech_end_potential := false,
      speech_started := false,
      speech_detected := false,
      speech_ended := false }

/-! ### The streaming response assembler (`InteractionManager._handle_transcription`)

The three `re.search` patterns of the source are modelled character by
character over `String.data`:

* `"outputs"\s*:\s*{\s*"(\w+)"` — leftmost match, group 1 is the maximal
  run of word characters after the opening quote (a following `"` is
  required, so backtracking cannot produce a shorter group);
* `"outputs"\s*:\s*{\s*"assistant_response"\s*:\s*"` — existence of a match;
* `.*"` — a quote preceded by zero or more non-newline characters, which
  holds exactly when the text contains a quote character.
-/

/-- The characters matched by the regex class `\s`. -/
def isWsChar (c : Char) : Bool :=
  c = ' ' ∨ c = Char.ofNat 9 ∨ c = Char.ofNat 10 ∨ c = Char.ofNat 11 ∨
    c = Char.ofNat 12 ∨ c = Char.ofNat 13

/-- The characters matched by the regex class `\w` (ASCII letters, digits
and underscore; the source scans ASCII JSON keys). -/
def isWordChar (c : Char) : Bool :=
  c.isAlpha ∨ c.isDigit ∨ c = '_'

/-- The double-quote character. -/
def quoteChar : Char := Char.ofNat 34

/-- The opening-brace character. -/
def lbraceChar : Char := Char.ofNat 123

/-- Match a literal character sequence at the head of the input, returning
the remainder. -/
def stripLit : List Char → List Char → Option (List Char)
  | [], cs => some cs
  | _ :: _, [] => none
  | l :: ls, c :: cs => if c = l then stripLit ls cs else none

/-- the literal `"outputs"` with its quotes. -/
def outputsLit : List Char :=
  [quoteChar] ++ String.toList "outputs" ++ [quoteChar]

/-- the literal `"assistant_response"` with its quotes. -/
def assistantKeyLit : List Char :=
  [quoteChar] ++ String.toList "assistant_response" ++ [quoteChar]

/-- Try the pattern `"outputs"\s*:\s*{\s*"(\w+)"` anchored at the head of
`cs`; on success return the captured group. -/
def matchShapeAt (cs : List Char) : Option String := do
  let cs ← stripLit outputsLit cs
  let cs := cs.dropWhile isWsChar
  let cs ← stripLit [':'] cs
  let cs := cs.dropWhile isWsChar
  let cs ← stripLit [lbraceChar] cs
  let cs := cs.dropWhile isWsChar
  let cs ← stripLit [quoteChar] cs
  let run := cs.takeWhile isWordChar
  if run = [] then none
  else
    match cs.drop run.length with
    | c :: _ => if c = quoteChar then some (String.mk run) else none
    | [] => none

/-- Models `re.search` of the shape pattern: try every suffix, leftmost first. -/
def searchShape : List Char → Option String
  | [] => none
  | c :: cs => (matchShapeAt (c :: cs)).orElse (fun _ => searchShape cs)

/-- Try `"outputs"\s*:\s*{\s*"assistant_response"\s*:\s*"` anchored at the
head of `cs`. -/
def matchAssistantStartAt (cs : List Char) : Bool :=
  (do
    let cs ← stripLit outputsLit cs
    let cs := cs.dropWhile isWsChar
    let cs ← stripLit [':'] cs
    let cs := cs.dropWhile isWsChar
    let cs ← stripLit [lbraceChar] cs
    let cs := cs.dropWhile isWsChar
    let cs ← stripLit assistantKeyLit cs
    let cs := cs.dropWhile isWsChar
    let cs ← stripLit [':'] cs
    let cs := cs.dropWhile isWsChar
    let _ ← stripLit [quoteChar] cs
    pure ()).isSome

/-- Models `re.search` of the assistant-start pattern. -/
def searchAssistantStart : List Char → Bool
  | [] => false
  | c :: cs => matchAssistantStartAt (c :: cs) ∨ searchAssistantStart cs

/-- Models `re.search(r'.*"', s)`: `s` contains a double quote. -/
def containsQuote (s : String) : Bool :=
  s.data.any (fun c => c = quoteChar)

/-- The pipeline-state value the response thread reads from
`self.recording_service.manager.pipeline_state` at one point in time. -/
abbrev PipeRead := Option PipelineState

/-- Models `pipeline_state in ['cancelled', 'false']`. -/
def invalidRead (p : PipeRead) : Bool :=
  p = some .cancelled ∨ p = some .pfalse

/-- One streamed LLM chunk: its delta content
(`chunk.choices[0].delta.content`, possibly `None`) together with the
pipeline state the manager reads while handling it (the source reads the
shared `pipeline_state` field; one read value per chunk models the
per-chunk snapshot). -/
structure Chunk where
  content : Option String
  pstate : PipeRead
deriving DecidableEq, Repr

/-- The loop-local variables of `_handle_transcription`'s `for chunk in
response` loop, together with the queued-audio list of the shared
`AudioProcessor`, a ghost trace of the sentences sent to
`tts_processor.process_tts` (in order), a ghost trace of played audio, and
control flags: `aborted` models the early `return` on an invalidated
pipeline, `excepted` models a Python `IndexError` from
`sentences[n_identified_sentences - 1]` propagating to the outer
`except`. -/
structure LoopState where
  accumulated_response : String
  accumulated_assistant_response : String
  response_type_known : Bool
  response_type : String
  assistant_response_start_reached : Bool
  assistant_response_end_reached : Bool
  n_identified_sentences : Nat
  dispatched : List String
  queued_audio : List String
  played : List String
  aborted : Bool
  excepted : Bool
deriving DecidableEq, Repr

/-- The loop state at entry of the `for` loop; `queued0` is the
`AudioProcessor.queued_audio` content at that moment. -/
def initLoop (queued0 : List String) : LoopState where
  accumulated_response := ""
  accumulated_assistant_response := ""
  response_type_known := false
  response_type := ""
  assistant_response_start_reached := false
  assistant_response_end_reached := false
  n_identified_sentences := 1
  dispatched := []
  queued_audio := queued0
  played := []
  aborted := false
  excepted := false

/-- Models `process_tts` + `queue_audio` + the conditional
`_play_queued_audio` that follows each dispatch: synthesis is modelled as
the sentence itself; when the read pipeline state is `'confirmed'`, all
queued audio is played (flushed) in order. -/
def dispatchSentence (st : LoopState) (p : PipeRead) (sentence : String) : LoopState :=
  let st := { st with
    dispatched := st.dispatched ++ [sentence],
    queued_audio := st.queued_audio ++ [sentence] }
  if p = some .confirmed then
    { st with played := st.played ++ st.queued_audio, queued_audio := [] }
  else st

/-- The innermost `elif not assistant_response_end_reached` block of the
loop body: accumulate the delta into the assistant text, then either close
the response (the closing-quote regex matched) and dispatch the sentence at
index `n_identified_sentences - 1` (an out-of-range index is the modelled
`IndexError`), or re-tokenize and dispatch that sentence only when a newer
sentence has completed after it. -/
def assistGrow (tok : String → List String) (p : PipeRead) (st : LoopState)
    (content : String) : LoopState :=
  let st := { st with
    accumulated_assistant_response :=
      st.accumulated_assistant_response ++ content }
  if containsQuote st.accumulated_assistant_response then
    let st := { st with assistant_response_end_reached := true }
    let sentences := tok st.accumulated_assistant_response
    if h : st.n_identified_sentences - 1 < sentences.length then
      dispatchSentence st p (sentences.get ⟨st.n_identified_sentences - 1, h⟩)
    else { st with excepted := true }
  else
    let sentences := tok st.accumulated_assistant_response
    if st.n_identified_sentences < sentences.length then
      let st' := dispatchSentence st p
        (sentences.getD (st.n_identified_sentences - 1) "")
      { st' with n_identified_sentences := st.n_identified_sentences + 1 }
    else st

/-- The `if chunk.choices[0].delta.content is not None` block of the loop
body: accumulate the delta, detect the output shape, detect the start of
the assistant text, and grow/dispatch it. -/
def processContent (tok : String → List String) (p : PipeRead) (st : LoopState)
    (content : String) : LoopState :=
  let st := { st with
    accumulated_response := st.accumulated_response ++ content }
  if ¬st.response_type_known then
    match searchShape st.accumulated_response.data with
    | some g => { st with response_type := g, response_type_known := true }
    | none => st
  else if st.response_type = "assistant_response" then
    if ¬st.assistant_response_start_reached then
      if searchAssistantStart st.accumulated_response.data then
        { st with assistant_response_start_reached := true }
      else st
    else if ¬st.assistant_response_end_reached then
      assistGrow tok p st content
    else st
  else st

/-- One iteration of the `for chunk in response` loop of
`_handle_transcription`, faithful to the source's `if`/`elif` chains.  Once
`aborted` or `excepted` is set, remaining chunks are not processed. -/
def loopStep (tok : String → List String) (st : LoopState) (c : Chunk) : LoopState :=
  if st.aborted ∨ st.excepted then st
  else if invalidRead c.pstate then { st with aborted := true }
  else
    match c.content with
    | none => st
    | some content => processContent tok c.pstate st content

/-- The whole `for` loop over the delta stream. -/
def runLoop (tok : String → List String) (chunks : List Chunk)
    (queued0 : List String) : LoopState :=
  chunks.foldl (loopStep tok) (initLoop queued0)

/-- Conversation message roles. -/
inductive Role where
  | user
  | assistant
  | system
deriving DecidableEq, Repr

/-- A `{"role": ..., "content": ...}` conversation message. -/
structure Message where
  role : Role
  content : String
deriving DecidableEq, Repr

/-- The `InteractionManager` fields the modelled handlers touch:
the committed and tentative message histories, the JSON bookkeeping, the
`current_pipeline` reference, and the shared `AudioProcessor.queued_audio`
list. -/
structure IMState where
  messages : List Message
  messages_tentative : List Message
  json_processed : Bool
  current_response : String
  current_pipeline : Option Int
  queued_audio : List String
deriving DecidableEq, Repr

/-- Models `InteractionManager._handle_false_end`: abort the current pipeline and
clear the queued audio; the message histories are untouched. -/
def handleFalseEnd (im : IMState) : IMState :=
  { im with
      current_pipeline := none,
      json_processed := false,
      current_response := "",
      queued_audio := [] }

/-- The observable outcome of one `_handle_transcription` call.
`dispatched`/`played` are the ghost traces of TTS calls and playback;
`parsed` records the argument of the `parse_accumulated_response`
invocation when it happens (the parse body — `json.loads` and the dynamic
mode import — acts on external collaborators and is modelled by this
invocation record); `earlyReturn` is set when the call returned before its
stream-completion section. -/
structure HTResult where
  messages : List Message
  messages_tentative : List Message
  json_processed : Bool
  current_response : String
  queued_audio : List String
  played : List String
  dispatched : List String
  parsed : Option String
  earlyReturn : Bool
deriving DecidableEq, Repr

/-- Models `InteractionManager._handle_transcription` on transcription `text`:
check the pipeline state on entry (`pstart`), build the tentative message
list, stream the LLM deltas through the assembler loop, and on completion
of the stream set `current_response`, append the assistant message to the
tentative list when assistant text accumulated, and — only when the
pipeline state read after the loop (`pend`) is `'confirmed'` — promote the
tentative messages, flush the queued audio and parse the accumulated
response.  An early `return` (invalid entry state or mid-stream
invalidation) and a Python exception both skip the completion section. -/
def handleTranscription (tok : String → List String) (im : IMState)
    (text : String) (pstart : PipeRead) (chunks : List Chunk)
    (pend : PipeRead) : HTResult :=
  if invalidRead pstart then
    { messages := im.messages
      messages_tentative := im.messages_tentative
      json_processed := im.json_processed
      current_response := im.current_response
      queued_audio := im.queued_audio
      played := []
      dispatched := []
      parsed := none
      earlyReturn := true }
  else
    let tentative := im.messages ++ [⟨.user, text⟩]
    let st := runLoop tok chunks im.queued_audio
    if st.aborted ∨ st.excepted then
      { messages := im.messages
        messages_tentative := tentative
        json_processed := im.json_processed
        current_response := im.current_response
        queued_audio := st.queued_audio
        played := st.played
        dispatched := st.dispatched
        parsed := none
        earlyReturn := true }
    else
      let curResp := st.accumulated_response
      let tentative :=
        if st.accumulated_assistant_response ≠ "" then
          tentative ++ [⟨.assistant, st.accumulated_assistant_response⟩]
        else tentative
      if pend = some .confirmed then
        { messages := tentative
          messages_tentative := tentative
          json_processed := true
          current_response := curResp
          queued_audio := []
          played := st.played ++ st.queued_audio
          dispatched := st.dispatched
          parsed := some curResp
          earlyReturn := false }
      else
        { messages := im.messages
          messages_tentative := tentative
          json_processed := false
          current_response := curResp
          queued_audio := st.queued_audio
          played := st.played
          dispatched := st.dispatched
          parsed := none
          earlyReturn := false }

/-! ### A concrete sentence tokenizer

`nltk.sent_tokenize` is an external collaborator; the assembler model takes
the tokenizer as a parameter `tok`.  For concrete witnesses and
counterexamples we instantiate it with a simple executable splitter that
cuts after every full stop and trims leading spaces, which agrees with the
spec's own example tokenizations. -/

/-- The full-stop character. -/
def dotChar : Char := Char.ofNat 46

/-- Split a character list into runs ending after each full stop; the final
run is the (possibly empty) remainder. -/
def splitDotsAux (acc : List Char) : List Char → List (List Char)
  | [] => [acc.reverse]
  | c :: cs =>
    if c = dotChar then (acc.reverse ++ [c]) :: splitDotsAux [] cs
    else splitDotsAux (c :: acc) cs

/-- Naive sentence tokenizer: split after each `.`, trim leading spaces,
drop empty pieces. -/
def naiveSentenceSplit (s : String) : List String :=
  ((splitDotsAux [] s.data).map (fun cs => cs.dropWhile (· = ' ')))
    |>.filter (· ≠ []) |>.map String.mk

/-! ### The playback queue (`AudioProcessor`) -/

/-- The `AudioProcessor` state plus the playback-complete event and ghost
observation fields: `written` is the sequence of successful sink writes as
(stream id, entry) pairs, `plays_attempted` counts `play_audio_now` calls.
Output streams are identified by the generation counter `next_stream_id`;
a created stream is modelled as active (an inactive sink behaves as an
absent one in `_ensure_output_stream`). -/
structure AudioProcState where
  queued_audio : List String
  output_stream : Option Nat
  next_stream_id : Nat
  playback_complete : Bool
  written : List (Nat × String)
  plays_attempted : Nat
deriving DecidableEq, Repr

/-- Models `AudioProcessor._ensure_output_stream`: reuse the existing active
stream, otherwise create a fresh one. -/
def ensureOutputStream (s : AudioProcState) : AudioProcState × Nat :=
  match s.output_stream with
  | some sid => (s, sid)
  | none =>
    ({ s with
        output_stream := some s.next_stream_id,
        next_stream_id := s.next_stream_id + 1 }, s.next_stream_id)

/-- Models `AudioProcessor.play_audio_now`: wait for and clear the
playback-complete event, ensure an output stream and write the entry; on a
playback error (`err = true`, driven by the external device) the `except`
clause closes the stream and clears the reference so it is recreated on the
next use, and the error is not re-raised; the `finally` clause sets the
playback-complete event in every case. -/
def playAudioNow (s : AudioProcState) (entry : String) (err : Bool) : AudioProcState :=
  let s := { s with
    playback_complete := false,
    plays_attempted := s.plays_attempted + 1 }
  let s :=
    if err then
      let (s1, _) := ensureOutputStream s
      { s1 with output_stream := none }
    else
      let (s1, sid) := ensureOutputStream s
      { s1 with written := s1.written ++ [(sid, entry)] }
  { s with playback_complete := true }

/-- The `for` loop of `play_queued_audio`: play each queued entry in order,
with the error oracle `errs` deciding which playbacks fail. -/
def flushGo : AudioProcState → List String → List Bool → AudioProcState
  | s, [], _ => s
  | s, e :: es, errs => flushGo (playAudioNow s e (errs.headD false)) es errs.tail

/-- Models `AudioProcessor.play_queued_audio`: play every queued entry in order,
then clear the queue. -/
def playQueuedAudio (s : AudioProcState) (errs : List Bool) : AudioProcState :=
  let s' := flushGo s s.queued_audio errs
  { s' with queued_audio := [] }

/-- The entries a flush successfully writes: those whose playback does not
error, in order. -/
def keptEntries : List String → List Bool → List String
  | [], _ => []
  | e :: es, errs =>
    (if errs.headD false then [] else [e]) ++ keptEntries es errs.tail

/-! ### Tokenizer assumptions for the assembler proofs -/

/-- The successive values of `accumulated_assistant_response` along the
processing of `chunks` (one entry per loop-prefix, including the empty
initial value). -/
def accumsList (tok : String → List String) (chunks : List Chunk)
    (queued0 : List String) : List String :=
  (List.range (chunks.length + 1)).map
    (fun i => (runLoop tok (chunks.take i) queued0).accumulated_assistant_response)

/-- The sentence-tokenizer stability assumptions the dispatch analysis
needs, restricted to the finitely many accumulation points of one stream:
on growth of the text, every sentence except possibly the last is stable
and the sentence count does not decrease; nonempty text has at least one
sentence.  (`nltk.sent_tokenize` behaves this way on ordinary prose.) -/
abbrev TokOk (tok : String → List String) (accs : List String) : Prop :=
  (∀ s1 ∈ accs, ∀ s2 ∈ accs, s1.data <+: s2.data →
    ((tok s1).dropLast <+: tok s2 ∧ (tok s1).length ≤ (tok s2).length)) ∧
  (∀ s1 ∈ accs, s1.data ≠ [] → tok s1 ≠ [])

/-- The dispatch invariant of the streaming loop: the dispatched sentences
are an initial segment of the tokenization of the accumulated assistant
text — the first `n_identified_sentences - 1` sentences while the end of
the response has not been reached, and the first `n_identified_sentences`
once it has. -/
def DispatchInv (tok : String → List String) (st : LoopState) : Prop :=
  1 ≤ st.n_identified_sentences ∧
  (st.assistant_response_end_reached = false →
    st.dispatched =
      (tok st.accumulated_assistant_response).take (st.n_identified_sentences - 1) ∧
    (st.n_identified_sentences - 1 = 0 ∨
      st.n_identified_sentences - 1 < (tok st.accumulated_assistant_response).length)) ∧
  (st.assistant_response_end_reached = true →
    st.dispatched =
      (tok st.accumulated_assistant_response).take st.n_identified_sentences ∧
    st.n_identified_sentences ≤ (tok st.accumulated_assistant_response).length)

/-! ### Concrete demonstration values -/

/-- First chunk of the spec's response-stream scenario. -/
def scChunk1 : Chunk :=
  ⟨some "\x7b\"outputs\":\x7b\"assistant_response\":\"Hi there. ", none⟩

/-- Second chunk of the spec's response-stream scenario. -/
def scChunk2 : Chunk := ⟨some "How are you?\"\x7d\x7d", none⟩

/-- A stream that delivers the JSON prelude, then the opening quote, then
the whole response body in one delta. -/
def pcChunk1 : Chunk := ⟨some "\x7b\"outputs\":\x7b\"assistant_response\":", none⟩

/-- Next: the opening quote of the response text. -/
def pcChunk2 : Chunk := ⟨some "\"", none⟩

/-- Next: a single delta carrying three complete sentences and the closing
quote. -/
def pcChunk3 : Chunk := ⟨some "Hello. World. Bye.\"\x7d\x7d", none⟩

/-- Next: a single mid-stream delta completing two new sentences. -/
def pcChunkMulti : Chunk := ⟨some "A. B. C", none⟩

/-- Incremental deltas used by the dispatch witnesses. -/
def pcChunk3a : Chunk := ⟨some "Hello the", none⟩

/-- Next: continuation delta that completes the first sentence. -/
def pcChunk3b : Chunk := ⟨some "re. How", none⟩

/-- Next: closing delta. -/
def pcChunk3c : Chunk := ⟨some " are you? I am fine. Bye.\"\x7d\x7d", none⟩

/-- An `InteractionManager` state with empty histories and queue. -/
def imDemo : IMState := ⟨[], [], false, "", none, []⟩

/-- A concrete configuration: 1 s thresholds, 16 kHz, 512-sample chunks
(the shape of `attend_config.yaml`); `backFrames` is then `31`. -/
def demoCfg : RMConfig where
  speech_start_threshold := 1
  speech_end_threshold := 1
  rate := 16000
  chunk := 512
  buffer_size := 100

/-- Driving the machine from its initial state through a full confirmed
turn: start potential at `t = 0`. -/
def c1Trace1 : RMState := (rmStep demoCfg initRMState 0 .vstart 0).1

/-- Next: speech started at `t = 2`. -/
def c1Trace2 : RMState := (rmStep demoCfg c1Trace1 0 .vnone 2).1

/-- Next: end potential at `t = 3` (pipeline created, id `3`). -/
def c1Trace3 : RMState := (rmStep demoCfg c1Trace2 0 .vend 3).1

/-- Next: speech ended at `t = 5` (pipeline confirmed). -/
def c1Trace4 : RMState := (rmStep demoCfg c1Trace3 0 .vnone 5).1

/-- Next: `save_speech` marks the confirmed pipeline as processing. -/
def c1Trace5 : RMState := (save_speech demoCfg c1Trace4 6).1

/-- Next: the processing loop resets the speech flags after the turn. -/
def c1Trace6 : RMState := rmReset c1Trace5

/-- Next: a new start potential at `t = 10` (confirmed-and-processing
pipeline is preserved here). -/
def c1Trace7 : RMState := (rmStep demoCfg c1Trace6 0 .vstart 10).1

/-- Next: the new speech starts at `t = 12`; the confirmed pipeline is still
processing when the next end potential arrives. -/
def c1Trace8 : RMState := (rmStep demoCfg c1Trace7 0 .vnone 12).1

/-- A buffer state whose oldest retained frame (timestamp `5`) is already
newer than the segment's `start_time = 3`. -/
def c3DemoState : RMState :=
  { initRMState with
      audio_buffer := [7]
      chunk_times := [5]
      speech_start_time := some 3
      speech_end_time := some 4
      current_pipeline_id := some 3
      pipeline_state := some .confirmed }

end Attend

namespace Attend

/-! ## Theorems -/

/-! ### Helper lemmas -/

/-- On a `start` classification with no segment started, the step takes the
start-potential branch: the flags and the event are fixed, independently of
the pipeline sub-branch. -/
theorem rmStep_vstart_fields (cfg : RMConfig) (s : RMState) (d : Nat) (t : Int)
    (h : s.speech_started = false) :
    (rmStep cfg s d .vstart t).1.speech_start_potential = true ∧
    (rmStep cfg s d .vstart t).1.speech_started = false ∧
    (rmStep cfg s d .vstart t).2 = [.speechStartPotential] := by
  refine ⟨?_, ?_, ?_⟩ <;>
    · simp only [rmStep, memStart, h]
      (repeat' split) <;> simp_all

/-- On an `end` classification during a pending start potential (segment
not started), the step takes the false-start branch. -/
theorem rmStep_vend_falseStart (cfg : RMConfig) (s : RMState) (d : Nat) (t : Int)
    (h1 : s.speech_start_potential = true) (h2 : s.speech_started = false) :
    rmStep cfg s d .vend t =
      ({ s with
          audio_buffer := appendBounded cfg.buffer_size s.audio_buffer d,
          chunk_times := appendBounded cfg.buffer_size s.chunk_times t,
          speech_start_potential := false,
          speech_start_time := none }, [.falseStart]) := by
  simp [rmStep, memStart, memEnd, vadIsNone, h1, h2]

/-- Characterization of a successful linear scan: the found index is in
range, satisfies the predicate, and is minimal. -/
theorem firstIdxFrom_some {p : Int → Bool} :
    ∀ {l : List Int} {i : Nat}, firstIdxFrom p l = some i →
      i < l.length ∧ p (l.getD i 0) = true ∧ ∀ j, j < i → p (l.getD j 0) = false := by
  intro l
  induction l with
  | nil => intro i h; simp [firstIdxFrom] at h
  | cons t ts ih =>
    intro i h
    by_cases hp : p t = true
    · rw [firstIdxFrom, if_pos hp] at h
      injection h with h
      subst h
      refine ⟨Nat.succ_pos _, by simpa using hp, ?_⟩
      intro j hj
      exact absurd hj (Nat.not_lt_zero j)
    · rw [firstIdxFrom, if_neg hp] at h
      rcases Option.map_eq_some'.mp h with ⟨i', hi', rfl⟩
      obtain ⟨h1, h2, h3⟩ := ih hi'
      rw [Bool.not_eq_true] at hp
      refine ⟨by simp only [List.length_cons]; omega, by simpa using h2, ?_⟩
      intro j hj
      cases j with
      | zero => simpa using hp
      | succ j' => simpa using h3 j' (by omega)

/-- A linear scan over a list containing a witness of the predicate
succeeds. -/
theorem firstIdxFrom_isSome {p : Int → Bool} :
    ∀ {l : List Int} {x : Int}, x ∈ l → p x = true →
      (firstIdxFrom p l).isSome = true := by
  intro l
  induction l with
  | nil => intro x hx; simp at hx
  | cons t ts ih =>
    intro x hx hp
    by_cases hpt : p t
    · simp [firstIdxFrom, hpt]
    · rcases List.mem_cons.mp hx with rfl | hmem
      · exact absurd hp hpt
      · have hrec := ih hmem hp
        simpa [firstIdxFrom, hpt] using hrec

/-- In a `≤`-sorted list, `getD` is monotone on in-range indices. -/
theorem pairwise_le_getD {l : List Int} (h : l.Pairwise (· ≤ ·)) (a b : Nat)
    (hab : a ≤ b) (hb : b < l.length) : l.getD a 0 ≤ l.getD b 0 := by
  rcases Nat.eq_or_lt_of_le hab with rfl | hlt
  · exact le_refl _
  · have ha : a < l.length := lt_trans hlt hb
    have hget := (List.pairwise_iff_getElem.mp h) a b ha hb hlt
    rw [List.getD_eq_getElem?_getD, List.getD_eq_getElem?_getD,
      List.getElem?_eq_getElem ha, List.getElem?_eq_getElem hb]
    simpa using hget

/-- Computing `getD` through `List.drop`. -/
theorem getD_drop_eq (l : List Int) (i j : Nat) :
    (l.drop i).getD j 0 = l.getD (i + j) 0 := by
  simp [List.getD_eq_getElem?_getD, List.getElem?_drop]

/-- Evaluation of the first trace step. -/
theorem c1Trace1_eq :
    c1Trace1 = ⟨[0], [0], some 0, none, true, false, false, false, false,
      none, none, none, false⟩ := by
  decide

/-- Evaluation of the second trace step. -/
theorem c1Trace2_eq :
    c1Trace2 = ⟨[0, 0], [0, 2], some 0, none, false, false, true, true, false,
      none, none, none, false⟩ := by
  unfold c1Trace2; rw [c1Trace1_eq]; decide

/-- Evaluation of the third trace step. -/
theorem c1Trace3_eq :
    c1Trace3 = ⟨[0, 0, 0], [0, 2, 3], some 0, some 3, false, true, true, true,
      false, none, some 3, none, false⟩ := by
  unfold c1Trace3; rw [c1Trace2_eq]; decide

/-- Evaluation of the fourth trace step. -/
theorem c1Trace4_eq :
    c1Trace4 = ⟨[0, 0, 0, 0], [0, 2, 3, 5], some 0, some 3, false, false, false,
      true, true, none, some 3, some .confirmed, false⟩ := by
  unfold c1Trace4; rw [c1Trace3_eq]; decide

/-- Evaluation of the `save_speech` trace step. -/
theorem c1Trace5_eq :
    c1Trace5 = ⟨[0, 0, 0, 0], [0, 2, 3, 5], some 0, some 3, false, false, false,
      true, true, none, some 3, some .confirmed, true⟩ := by
  unfold c1Trace5; rw [c1Trace4_eq]; decide

/-- Evaluation of the reset trace step. -/
theorem c1Trace6_eq :
    c1Trace6 = ⟨[0, 0, 0, 0], [0, 2, 3, 5], none, none, false, false, false,
      false, false, none, some 3, some .confirmed, true⟩ := by
  unfold c1Trace6; rw [c1Trace5_eq]; decide

/-- Evaluation of the second start potential. -/
theorem c1Trace7_eq :
    c1Trace7 = ⟨[0, 0, 0, 0, 0], [0, 2, 3, 5, 10], some 10, none, true, false,
      false, false, false, none, some 3, some .confirmed, true⟩ := by
  unfold c1Trace7; rw [c1Trace6_eq]; decide

/-- Evaluation of the second speech start: the state before the violating
end potential. -/
theorem c1Trace8_eq :
    c1Trace8 = ⟨[0, 0, 0, 0, 0, 0], [0, 2, 3, 5, 10, 12], some 10, none, false,
      false, true, true, false, none, some 3, some .confirmed, true⟩ := by
  unfold c1Trace8; rw [c1Trace7_eq]; decide

/-- C10: `RecordingManager.reset` clears exactly the seven speech-tracking
fields and leaves the rolling audio buffer, the chunk timestamps, the
latest transcription and the three pipeline fields unchanged, so resetting
after a confirmed turn does not cancel that pipeline. -/
theorem c10_reset_frame_effect (s : RMState) :
    (rmReset s).audio_buffer = s.audio_buffer ∧
    (rmReset s).chunk_times = s.chunk_times ∧
    (rmReset s).latest_transcription = s.latest_transcription ∧
    (rmReset s).current_pipeline_id = s.current_pipeline_id ∧
    (rmReset s).pipeline_state = s.pipeline_state ∧
    (rmReset s).pipeline_processing = s.pipeline_processing ∧
    (rmReset s).speech_start_time = none ∧
    (rmReset s).speech_end_time = none ∧
    (rmReset s).speech_start_potential = false ∧
    (rmReset s).speech_end_potential = false ∧
    (rmReset s).speech_started = false ∧
    (rmReset s).speech_detected = false ∧
    (rmReset s).speech_ended = false := by
  simp [rmReset]

/-- C6: a confirmed pipeline is never demoted to `'false'`: no single
transition maps `pipeline_state = 'confirmed'` to `'false'`, and the
false-end transition (a `start` classification while started with an end
potential pending) leaves the state `'confirmed'`, because the branch only
marks non-confirmed pipelines as false. -/
theorem c6_confirmed_never_demoted_to_false (cfg : RMConfig) (s : RMState)
    (data : Nat) (vad : VadInput) (t : Int)
    (h : s.pipeline_state = some .confirmed) :
    (rmStep cfg s data vad t).1.pipeline_state ≠ some .pfalse ∧
    (vad = .vstart → s.speech_started = true → s.speech_end_potential = true →
      (rmStep cfg s data vad t).1.pipeline_state = some .confirmed) := by
  obtain ⟨ab, ct, q1, q2, b1, b2, b3, b4, b5, lt, pid, pst, ppr⟩ := s
  simp only at h
  subst h
  constructor
  · cases vad <;> cases b1 <;> cases b2 <;> cases b3 <;>
      simp [rmStep, memStart, memEnd, vadIsNone] <;>
      (repeat' split) <;> simp_all
  · intro hv h1 h2
    simp only at h1 h2
    subst hv h1 h2
    simp [rmStep, memStart, memEnd, vadIsNone]

/-- C6 witness: instantiation at a concrete confirmed state. -/
theorem c6_witness :
    c1Trace8.pipeline_state = some .confirmed ∧
    (rmStep demoCfg c1Trace8 0 .vstart 13).1.pipeline_state ≠ some .pfalse :=
  ⟨by rw [c1Trace8_eq],
    (c6_confirmed_never_demoted_to_false demoCfg c1Trace8 0 .vstart 13
      (by rw [c1Trace8_eq])).1⟩

/-- C8: from any state with no speech segment started, a `start`
classification immediately followed by an `end` classification (before
`start_threshold` can elapse) emits exactly one `FALSE_START`, zero
`SPEECH_STARTED`, and clears both the start-potential flag and the
recorded start time. -/
theorem c8_false_start_sequence (cfg : RMConfig) (s : RMState) (d1 d2 : Nat)
    (t0 t1 : Int) (hstarted : s.speech_started = false)
    (_hthr : t1 - t0 < cfg.speech_start_threshold) :
    (rmStep cfg s d1 .vstart t0).2 ++
      (rmStep cfg (rmStep cfg s d1 .vstart t0).1 d2 .vend t1).2 =
      [.speechStartPotential, .falseStart] ∧
    ((rmStep cfg s d1 .vstart t0).2 ++
      (rmStep cfg (rmStep cfg s d1 .vstart t0).1 d2 .vend t1).2).count .falseStart = 1 ∧
    ((rmStep cfg s d1 .vstart t0).2 ++
      (rmStep cfg (rmStep cfg s d1 .vstart t0).1 d2 .vend t1).2).count .speechStarted = 0 ∧
    (rmStep cfg (rmStep cfg s d1 .vstart t0).1 d2 .vend t1).1.speech_start_potential = false ∧
    (rmStep cfg (rmStep cfg s d1 .vstart t0).1 d2 .vend t1).1.speech_start_time = none := by
  obtain ⟨hsp, hst, hev1⟩ := rmStep_vstart_fields cfg s d1 t0 hstarted
  rw [rmStep_vend_falseStart cfg ((rmStep cfg s d1 .vstart t0).1) d2 t1 hsp hst, hev1]
  exact ⟨rfl, rfl, rfl, rfl, rfl⟩

/-- C8 witness: concrete two-classification sequence from the initial
state. -/
theorem c8_witness :
    initRMState.speech_started = false ∧ ((0:Int) - 0 < demoCfg.speech_start_threshold) ∧
    (rmStep demoCfg initRMState 0 .vstart 0).2 ++
      (rmStep demoCfg (rmStep demoCfg initRMState 0 .vstart 0).1 0 .vend 0).2 =
      [.speechStartPotential, .falseStart] :=
  ⟨rfl, by decide,
    (c8_false_start_sequence demoCfg initRMState 0 0 0 0 rfl (by decide)).1⟩

/-- C1 counterexample: a reachable state (`c1Trace8`, reached from the
initial state by a confirmed turn, `save_speech`, a reset, and a second
utterance) whose pipeline is confirmed and still processing; the next
speech-end potential nevertheless replaces the pipeline id and clears its
state and processing flag, contradicting the claimed no-op. -/
theorem c1_counterexample :
    c1Trace8.pipeline_state = some .confirmed ∧
    c1Trace8.pipeline_processing = true ∧
    c1Trace8.current_pipeline_id = some 3 ∧
    c1Trace8.speech_started = true ∧
    c1Trace8.speech_end_potential = false ∧
    (rmStep demoCfg c1Trace8 0 .vend 13).1.current_pipeline_id ≠ c1Trace8.current_pipeline_id ∧
    (rmStep demoCfg c1Trace8 0 .vend 13).1.pipeline_state ≠ c1Trace8.pipeline_state ∧
    (rmStep demoCfg c1Trace8 0 .vend 13).1.pipeline_processing ≠ c1Trace8.pipeline_processing := by
  rw [c1Trace8_eq]; decide

/-- C1 (amended): a new speech-start potential leaves a
confirmed-and-processing pipeline's id, state and processing flag
unchanged; a new speech-end potential, however, unconditionally replaces
the pipeline identity (fresh id, state `None`, processing cleared) even
while the existing pipeline is confirmed and processing. -/
theorem c1_amended (cfg : RMConfig) (s : RMState) (d : Nat) (t : Int)
    (hconf : s.pipeline_state = some .confirmed)
    (hproc : s.pipeline_processing = true)
    (hid : idTruthy s.current_pipeline_id = true) :
    (s.speech_started = false →
      (rmStep cfg s d .vstart t).1.current_pipeline_id = s.current_pipeline_id ∧
      (rmStep cfg s d .vstart t).1.pipeline_state = some .confirmed ∧
      (rmStep cfg s d .vstart t).1.pipeline_processing = true) ∧
    (s.speech_started = true → s.speech_end_potential = false →
      (rmStep cfg s d .vend t).1.current_pipeline_id = some t ∧
      (rmStep cfg s d .vend t).1.pipeline_state = none ∧
      (rmStep cfg s d .vend t).1.pipeline_processing = false) := by
  obtain ⟨ab, ct, q1, q2, b1, b2, b3, b4, b5, lt, pid, pst, ppr⟩ := s
  simp only at hconf hproc hid
  subst hconf hproc
  constructor
  · intro h1; simp only at h1; subst h1
    simp [rmStep, memStart, memEnd, vadIsNone, hid]
  · intro h1 h2; simp only at h1 h2; subst h1 h2
    simp [rmStep, memStart, memEnd, vadIsNone]

/-- C1 amended witness: instantiation at the reachable
confirmed-and-processing state. -/
theorem c1_amended_witness :
    c1Trace8.pipeline_state = some .confirmed ∧
    c1Trace8.pipeline_processing = true ∧
    idTruthy c1Trace8.current_pipeline_id = true ∧
    (rmStep demoCfg c1Trace8 0 .vend 13).1.pipeline_state = none :=
  ⟨by rw [c1Trace8_eq], by rw [c1Trace8_eq], by rw [c1Trace8_eq]; decide,
    ((c1_amended demoCfg c1Trace8 0 13 (by rw [c1Trace8_eq]) (by rw [c1Trace8_eq])
      (by rw [c1Trace8_eq]; decide)).2
      (by rw [c1Trace8_eq]) (by rw [c1Trace8_eq])).2.1⟩

/-- C3 counterexample: with the rolling buffer holding a single frame at
timestamp `5` and a segment recorded as `start_time = 3`,
`end_time = 4`, the extracted slice is that frame, whose timestamp `5`
exceeds `start_time`; the claimed bound `first frame timestamp ≤
start_time` fails for this buffer state. -/
theorem c3_counterexample :
    (save_speech demoCfg c3DemoState 6).2 = [7] ∧
    saveSliceTimes c3DemoState.chunk_times 3 4 (backFrames demoCfg) = [5] ∧
    ¬((5:Int) ≤ 3) := by
  decide

/-- A single `play_audio_now` call always leaves the playback-complete
event set and never touches the queue, and its successful-write trace grows
by the entry exactly when the playback did not error. -/
theorem playAudioNow_effects (s : AudioProcState) (entry : String) (err : Bool) :
    (playAudioNow s entry err).playback_complete = true ∧
    (playAudioNow s entry err).queued_audio = s.queued_audio ∧
    (playAudioNow s entry err).plays_attempted = s.plays_attempted + 1 ∧
    (playAudioNow s entry err).written.map Prod.snd =
      s.written.map Prod.snd ++ (if err then [] else [entry]) := by
  cases err <;> cases h : s.output_stream <;>
    simp [playAudioNow, ensureOutputStream, h]

/-- The flush loop attempts every entry. -/
theorem flushGo_plays :
    ∀ (entries : List String) (errs : List Bool) (s : AudioProcState),
      (flushGo s entries errs).plays_attempted = s.plays_attempted + entries.length := by
  intro entries
  induction entries with
  | nil => intro errs s; simp [flushGo]
  | cons e es ih =>
    intro errs s
    rw [flushGo, ih]
    rw [(playAudioNow_effects s e (errs.headD false)).2.2.1]
    simp [Nat.add_assoc, Nat.add_comm 1]

/-- The flush loop writes exactly the non-erroring entries, in order. -/
theorem flushGo_written :
    ∀ (entries : List String) (errs : List Bool) (s : AudioProcState),
      (flushGo s entries errs).written.map Prod.snd =
        s.written.map Prod.snd ++ keptEntries entries errs := by
  intro entries
  induction entries with
  | nil => intro errs s; simp [flushGo, keptEntries]
  | cons e es ih =>
    intro errs s
    rw [flushGo, ih]
    rw [(playAudioNow_effects s e (errs.headD false)).2.2.2]
    cases h : errs.headD false <;>
      simp [keptEntries, ← List.headD_eq_head?_getD, h]

/-- The flush loop never touches the queue field. -/
theorem flushGo_queue :
    ∀ (entries : List String) (errs : List Bool) (s : AudioProcState),
      (flushGo s entries errs).queued_audio = s.queued_audio := by
  intro entries
  induction entries with
  | nil => intro errs s; simp [flushGo]
  | cons e es ih =>
    intro errs s
    rw [flushGo, ih]
    exact (playAudioNow_effects s e (errs.headD false)).2.1

/-- A loop state marked aborted or excepted is left untouched by further
chunks. -/
theorem loopStep_frozen (tok : String → List String) (st : LoopState) (c : Chunk)
    (h : st.aborted = true ∨ st.excepted = true) : loopStep tok st c = st := by
  unfold loopStep
  rw [if_pos h]

/-- Folding any chunk list over a frozen loop state is the identity. -/
theorem foldl_loopStep_frozen (tok : String → List String) :
    ∀ (l : List Chunk) (st : LoopState),
      (st.aborted = true ∨ st.excepted = true) →
      l.foldl (loopStep tok) st = st := by
  intro l
  induction l with
  | nil => intro st _; rfl
  | cons c cs ih =>
    intro st h
    rw [List.foldl_cons, loopStep_frozen tok st c h]
    exact ih st h

/-- The function `dispatchSentence` appends exactly the dispatched sentence. -/
theorem dispatchSentence_dispatched (st : LoopState) (p : PipeRead) (s : String) :
    (dispatchSentence st p s).dispatched = st.dispatched ++ [s] := by
  unfold dispatchSentence
  try dsimp only
  split <;> rfl

/-- The function `dispatchSentence` does not touch the accumulated assistant text. -/
theorem dispatchSentence_acc (st : LoopState) (p : PipeRead) (s : String) :
    (dispatchSentence st p s).accumulated_assistant_response =
      st.accumulated_assistant_response := by
  unfold dispatchSentence
  try dsimp only
  split <;> rfl

/-- The function `dispatchSentence` plays nothing when the read state is not
`'confirmed'`. -/
theorem dispatchSentence_played (st : LoopState) (p : PipeRead) (s : String)
    (h : p ≠ some .confirmed) :
    (dispatchSentence st p s).played = st.played := by
  unfold dispatchSentence
  try dsimp only
  split <;> simp_all

/-- The function `assistGrow` extends the dispatched trace by at most one sentence. -/
theorem assistGrow_dispatched_mono (tok : String → List String) (p : PipeRead)
    (st : LoopState) (content : String) :
    st.dispatched <+: (assistGrow tok p st content).dispatched ∧
    (assistGrow tok p st content).dispatched.length ≤ st.dispatched.length + 1 := by
  unfold assistGrow
  try dsimp only
  (repeat' split) <;>
    simp [dispatchSentence_dispatched, List.prefix_append, List.prefix_refl, Nat.le_succ]

/-- The function `assistGrow` plays nothing when the read state is not `'confirmed'`. -/
theorem assistGrow_played (tok : String → List String) (p : PipeRead)
    (st : LoopState) (content : String) (h : p ≠ some .confirmed) :
    (assistGrow tok p st content).played = st.played := by
  unfold assistGrow
  try dsimp only
  (repeat' split) <;> simp [dispatchSentence_played _ _ _ h]

/-- The function `assistGrow` appends the delta to the assistant text, in every
branch. -/
theorem assistGrow_acc (tok : String → List String) (p : PipeRead)
    (st : LoopState) (content : String) :
    (assistGrow tok p st content).accumulated_assistant_response =
      st.accumulated_assistant_response ++ content := by
  unfold assistGrow
  try dsimp only
  (repeat' split) <;> simp [dispatchSentence_acc]

/-- The function `processContent` extends the dispatched trace by at most one
sentence. -/
theorem processContent_dispatched_mono (tok : String → List String) (p : PipeRead)
    (st : LoopState) (content : String) :
    st.dispatched <+: (processContent tok p st content).dispatched ∧
    (processContent tok p st content).dispatched.length ≤ st.dispatched.length + 1 := by
  unfold processContent
  try dsimp only
  (repeat' split) <;>
    first
      | exact assistGrow_dispatched_mono tok p
          { st with accumulated_response := st.accumulated_response ++ content } content
      | simp [List.prefix_refl, Nat.le_succ]

/-- The function `processContent` plays nothing when the read state is not
`'confirmed'`. -/
theorem processContent_played (tok : String → List String) (p : PipeRead)
    (st : LoopState) (content : String) (h : p ≠ some .confirmed) :
    (processContent tok p st content).played = st.played := by
  unfold processContent
  try dsimp only
  (repeat' split) <;>
    first
      | exact assistGrow_played tok p
          { st with accumulated_response := st.accumulated_response ++ content } content h
      | rfl

/-- The function `processContent` leaves the assistant text unchanged or appends the
delta to it. -/
theorem processContent_acc_cases (tok : String → List String) (p : PipeRead)
    (st : LoopState) (content : String) :
    (processContent tok p st content).accumulated_assistant_response =
      st.accumulated_assistant_response ∨
    (processContent tok p st content).accumulated_assistant_response =
      st.accumulated_assistant_response ++ content := by
  unfold processContent
  try dsimp only
  (repeat' split) <;>
    first
      | exact Or.inr (assistGrow_acc tok p
          { st with accumulated_response := st.accumulated_response ++ content } content)
      | exact Or.inl rfl

/-- Each chunk extends the dispatched-sentence trace by at most one
sentence, on the right. -/
theorem loopStep_dispatched_mono (tok : String → List String) (st : LoopState)
    (c : Chunk) :
    st.dispatched <+: (loopStep tok st c).dispatched ∧
    (loopStep tok st c).dispatched.length ≤ st.dispatched.length + 1 := by
  unfold loopStep
  try dsimp only
  (repeat' split) <;>
    first
      | exact processContent_dispatched_mono tok c.pstate st _
      | simp [List.prefix_refl, Nat.le_succ]

/-- The dispatched trace is monotone along the whole loop. -/
theorem foldl_dispatched_mono (tok : String → List String) :
    ∀ (l : List Chunk) (st : LoopState),
      st.dispatched <+: (l.foldl (loopStep tok) st).dispatched := by
  intro l
  induction l with
  | nil => intro st; exact List.prefix_refl _
  | cons c cs ih =>
    intro st
    rw [List.foldl_cons]
    exact (loopStep_dispatched_mono tok st c).1.trans (ih (loopStep tok st c))

/-- A chunk whose pipeline read is not `'confirmed'` plays nothing. -/
theorem loopStep_played (tok : String → List String) (st : LoopState) (c : Chunk)
    (h : c.pstate ≠ some .confirmed) :
    (loopStep tok st c).played = st.played := by
  unfold loopStep
  try dsimp only
  (repeat' split) <;>
    first
      | exact processContent_played tok c.pstate st _ h
      | rfl

/-- A stretch of chunks none of which reads `'confirmed'` plays nothing. -/
theorem foldl_played (tok : String → List String) :
    ∀ (l : List Chunk) (st : LoopState),
      (∀ ch ∈ l, ch.pstate ≠ some .confirmed) →
      (l.foldl (loopStep tok) st).played = st.played := by
  intro l
  induction l with
  | nil => intro st _; rfl
  | cons c cs ih =>
    intro st h
    rw [List.foldl_cons, ih _ (fun ch hm => h ch (List.mem_cons_of_mem c hm)),
      loopStep_played tok st c (h c (List.mem_cons_self c cs))]

/-- The accumulated assistant text only grows on the right. -/
theorem loopStep_acc_extends (tok : String → List String) (st : LoopState) (c : Chunk) :
    st.accumulated_assistant_response.data <+:
      (loopStep tok st c).accumulated_assistant_response.data := by
  unfold loopStep
  try dsimp only
  (repeat' split) <;>
    first
      | (rcases processContent_acc_cases tok c.pstate st _ with h | h <;>
          rw [h] <;> simp [String.data_append, List.prefix_append, List.prefix_refl])
      | exact List.prefix_refl _

/-- Unrolling one chunk of the loop. -/
theorem runLoop_take_succ (tok : String → List String) (chunks : List Chunk)
    (q0 : List String) (i : Nat) (h : i < chunks.length) :
    runLoop tok (chunks.take (i + 1)) q0 =
      loopStep tok (runLoop tok (chunks.take i) q0) (chunks.get ⟨i, h⟩) := by
  unfold runLoop
  rw [List.take_succ, List.getElem?_eq_getElem h, List.foldl_append]
  rfl

/-- Processing stops at the first invalid pipeline read: the loop result of
the whole stream carries exactly the dispatch, queue and play traces
accumulated before that chunk, and is aborted or excepted. -/
theorem runLoop_invalid_cut (tok : String → List String) (pre : List Chunk)
    (c : Chunk) (post : List Chunk) (q0 : List String)
    (hc : invalidRead c.pstate = true) :
    (runLoop tok (pre ++ c :: post) q0).dispatched = (runLoop tok pre q0).dispatched ∧
    (runLoop tok (pre ++ c :: post) q0).queued_audio = (runLoop tok pre q0).queued_audio ∧
    (runLoop tok (pre ++ c :: post) q0).played = (runLoop tok pre q0).played ∧
    ((runLoop tok (pre ++ c :: post) q0).aborted = true ∨
      (runLoop tok (pre ++ c :: post) q0).excepted = true) := by
  have hsplit : runLoop tok (pre ++ c :: post) q0 =
      (c :: post).foldl (loopStep tok) (runLoop tok pre q0) := by
    unfold runLoop
    rw [List.foldl_append]
  by_cases hae : (runLoop tok pre q0).aborted = true ∨ (runLoop tok pre q0).excepted = true
  · rw [hsplit, foldl_loopStep_frozen tok _ _ hae]
    exact ⟨rfl, rfl, rfl, hae⟩
  · have hna : (runLoop tok pre q0).aborted = false := by
      cases hb : (runLoop tok pre q0).aborted
      · rfl
      · exact absurd (Or.inl hb) hae
    have hnx : (runLoop tok pre q0).excepted = false := by
      cases hb : (runLoop tok pre q0).excepted
      · rfl
      · exact absurd (Or.inr hb) hae
    have hcond : ¬((runLoop tok pre q0).aborted = true ∨
        (runLoop tok pre q0).excepted = true) := by
      simp [hna, hnx]
    have hstep : loopStep tok (runLoop tok pre q0) c =
        { runLoop tok pre q0 with aborted := true } := by
      unfold loopStep
      rw [if_neg hcond, if_pos hc]
    rw [hsplit, List.foldl_cons, hstep,
      foldl_loopStep_frozen tok post _ (Or.inl rfl)]
    exact ⟨rfl, rfl, rfl, Or.inl rfl⟩

/-- The function `dispatchSentence` does not touch the sentence counter. -/
theorem dispatchSentence_n (st : LoopState) (p : PipeRead) (s : String) :
    (dispatchSentence st p s).n_identified_sentences = st.n_identified_sentences := by
  unfold dispatchSentence
  try dsimp only
  split <;> rfl

/-- The function `dispatchSentence` does not touch the end-reached flag. -/
theorem dispatchSentence_end (st : LoopState) (p : PipeRead) (s : String) :
    (dispatchSentence st p s).assistant_response_end_reached =
      st.assistant_response_end_reached := by
  unfold dispatchSentence
  try dsimp only
  split <;> rfl

/-- The dispatch invariant only depends on four fields of the loop
state. -/
theorem dispatchInv_of_eq_fields (tok : String → List String) (a b : LoopState)
    (h1 : b.accumulated_assistant_response = a.accumulated_assistant_response)
    (h2 : b.dispatched = a.dispatched)
    (h3 : b.n_identified_sentences = a.n_identified_sentences)
    (h4 : b.assistant_response_end_reached = a.assistant_response_end_reached)
    (hInv : DispatchInv tok a) : DispatchInv tok b := by
  unfold DispatchInv at hInv ⊢
  rw [h1, h2, h3, h4]
  exact hInv

/-- A stable tokenizer changes no already-completed sentence: taking at
most all-but-the-last sentences commutes with growing the text. -/
theorem take_stable {l m : List String} (k : Nat)
    (hpre : l.dropLast <+: m) (hk : k = 0 ∨ k < l.length) :
    l.take k = m.take k := by
  rcases hk with rfl | hk
  · simp
  · have h1 : l.take k = l.dropLast.take k := by
      rw [List.dropLast_eq_take, List.take_take]
      congr 1
      omega
    obtain ⟨t, ht⟩ := hpre
    rw [h1, ← ht, List.take_append_of_le_length]
    rw [List.length_dropLast]
    omega

/-- A text containing a quote is nonempty. -/
theorem containsQuote_ne_nil {s : String} (h : containsQuote s = true) :
    s.data ≠ [] := by
  intro hnil
  rw [containsQuote, hnil] at h
  simp at h

/-- Extending an initial segment by the next element. -/
theorem take_concat_get' (l : List String) (k : Nat) (hk : k < l.length) :
    l.take k ++ [l.get ⟨k, hk⟩] = l.take (k + 1) := by
  rw [List.take_succ, List.getElem?_eq_getElem hk]
  rfl

/-- The dispatch invariant is preserved by the assistant-text growth step,
given the tokenizer stability facts for this growth. -/
theorem dispatchInv_assistGrow (tok : String → List String) (p : PipeRead)
    (st : LoopState) (content : String) (st' : LoopState)
    (heq : assistGrow tok p st content = st')
    (hend : st.assistant_response_end_reached = false)
    (hInv : DispatchInv tok st)
    (hstab : (tok st.accumulated_assistant_response).dropLast <+:
      tok st'.accumulated_assistant_response)
    (hlen : (tok st.accumulated_assistant_response).length ≤
      (tok st'.accumulated_assistant_response).length)
    (hne : st'.accumulated_assistant_response.data ≠ [] →
      tok st'.accumulated_assistant_response ≠ []) :
    DispatchInv tok st' := by
  obtain ⟨hn1, hInvF, hInvT⟩ := hInv
  obtain ⟨hd, hbound⟩ := hInvF hend
  have hacc : st'.accumulated_assistant_response =
      st.accumulated_assistant_response ++ content := by
    rw [← heq]
    exact assistGrow_acc tok p st content
  rw [hacc] at hstab hlen hne
  have hkey : (tok st.accumulated_assistant_response).take
        (st.n_identified_sentences - 1) =
      (tok (st.accumulated_assistant_response ++ content)).take
        (st.n_identified_sentences - 1) :=
    take_stable _ hstab hbound
  have hn' : st.n_identified_sentences - 1 + 1 = st.n_identified_sentences := by
    omega
  unfold assistGrow at heq
  try dsimp only at heq
  split at heq
  case isTrue hq =>
    split at heq
    case isTrue hlt =>
      subst heq
      have hlt' : st.n_identified_sentences - 1 <
          (tok (st.accumulated_assistant_response ++ content)).length := hlt
      unfold DispatchInv
      refine ⟨?_, ?_, ?_⟩
      · rw [dispatchSentence_n]
        exact hn1
      · intro hf
        rw [dispatchSentence_end] at hf
        simp at hf
      · intro _
        rw [dispatchSentence_n, dispatchSentence_acc, dispatchSentence_dispatched]
        dsimp only
        constructor
        · conv_rhs => rw [← hn']
          rw [hd, hkey, List.take_succ, List.getElem?_eq_getElem hlt']
          rfl
        · omega
    case isFalse hlt =>
      exfalso
      apply hlt
      rcases hbound with h0 | hb
      · show st.n_identified_sentences - 1 <
          (tok (st.accumulated_assistant_response ++ content)).length
        rw [h0]
        exact List.length_pos.mpr (hne (containsQuote_ne_nil hq))
      · show st.n_identified_sentences - 1 <
          (tok (st.accumulated_assistant_response ++ content)).length
        exact lt_of_lt_of_le hb hlen
  case isFalse hq =>
    split at heq
    case isTrue hgt =>
      subst heq
      have hgt' : st.n_identified_sentences <
          (tok (st.accumulated_assistant_response ++ content)).length := hgt
      have hge : st.n_identified_sentences - 1 <
          (tok (st.accumulated_assistant_response ++ content)).length := by
        omega
      unfold DispatchInv
      refine ⟨?_, ?_, ?_⟩
      · dsimp only
        omega
      · intro _
        dsimp only
        rw [dispatchSentence_acc, dispatchSentence_dispatched]
        dsimp only
        constructor
        · rw [List.getD_eq_getElem?_getD, List.getElem?_eq_getElem hge]
          have hsimp : st.n_identified_sentences + 1 - 1 = st.n_identified_sentences := by
            omega
          rw [hsimp]
          conv_rhs => rw [← hn']
          rw [hd, hkey, List.take_succ, List.getElem?_eq_getElem hge]
          rfl
        · omega
      · intro ht
        dsimp only at ht
        rw [dispatchSentence_end] at ht
        dsimp only at ht
        rw [hend] at ht
        simp at ht
    case isFalse hgt =>
      subst heq
      unfold DispatchInv
      refine ⟨hn1, ?_, ?_⟩
      · intro _
        refine ⟨hd.trans hkey, ?_⟩
        rcases hbound with h0 | hb
        · exact Or.inl h0
        · exact Or.inr (lt_of_lt_of_le hb hlen)
      · intro ht
        dsimp only at ht
        rw [hend] at ht
        simp at ht

/-- The dispatch invariant is preserved by `processContent`. -/
theorem dispatchInv_processContent (tok : String → List String) (p : PipeRead)
    (st : LoopState) (content : String) (st' : LoopState)
    (heq : processContent tok p st content = st')
    (hInv : DispatchInv tok st)
    (hstab : (tok st.accumulated_assistant_response).dropLast <+:
      tok st'.accumulated_assistant_response)
    (hlen : (tok st.accumulated_assistant_response).length ≤
      (tok st'.accumulated_assistant_response).length)
    (hne : st'.accumulated_assistant_response.data ≠ [] →
      tok st'.accumulated_assistant_response ≠ []) :
    DispatchInv tok st' := by
  unfold processContent at heq
  try dsimp only at heq
  split at heq
  · split at heq
    · subst heq
      exact dispatchInv_of_eq_fields tok st _ rfl rfl rfl rfl hInv
    · subst heq
      exact dispatchInv_of_eq_fields tok st _ rfl rfl rfl rfl hInv
  · split at heq
    · split at heq
      · split at heq
        · subst heq
          exact dispatchInv_of_eq_fields tok st _ rfl rfl rfl rfl hInv
        · subst heq
          exact dispatchInv_of_eq_fields tok st _ rfl rfl rfl rfl hInv
      · split at heq
        · rename_i hendf
          have hendf' : st.assistant_response_end_reached = false := by
            simpa using hendf
          exact dispatchInv_assistGrow tok p _ content st' heq hendf'
            (dispatchInv_of_eq_fields tok st _ rfl rfl rfl rfl hInv) hstab hlen hne
        · subst heq
          exact dispatchInv_of_eq_fields tok st _ rfl rfl rfl rfl hInv
    · subst heq
      exact dispatchInv_of_eq_fields tok st _ rfl rfl rfl rfl hInv

/-- The dispatch invariant is preserved by every loop step. -/
theorem dispatchInv_loopStep (tok : String → List String) (st : LoopState)
    (c : Chunk) (st' : LoopState) (heq : loopStep tok st c = st')
    (hInv : DispatchInv tok st)
    (hstab : (tok st.accumulated_assistant_response).dropLast <+:
      tok st'.accumulated_assistant_response)
    (hlen : (tok st.accumulated_assistant_response).length ≤
      (tok st'.accumulated_assistant_response).length)
    (hne : st'.accumulated_assistant_response.data ≠ [] →
      tok st'.accumulated_assistant_response ≠ []) :
    DispatchInv tok st' := by
  unfold loopStep at heq
  split at heq
  · subst heq
    exact hInv
  · split at heq
    · subst heq
      exact dispatchInv_of_eq_fields tok st _ rfl rfl rfl rfl hInv
    · split at heq
      · subst heq
        exact hInv
      · exact dispatchInv_processContent tok c.pstate st _ st' heq hInv hstab hlen hne

/-- The dispatch invariant holds at every point of the loop, given the
tokenizer stability facts on this stream's accumulation points. -/
theorem dispatchInv_run (tok : String → List String) (chunks : List Chunk)
    (q0 : List String) (htok : TokOk tok (accumsList tok chunks q0)) :
    ∀ i, DispatchInv tok (runLoop tok (chunks.take i) q0) := by
  intro i
  induction i with
  | zero =>
    have h0 : runLoop tok (chunks.take 0) q0 = initLoop q0 := by
      rw [List.take_zero]
      rfl
    rw [h0]
    unfold DispatchInv initLoop
    exact ⟨le_refl 1, fun _ => ⟨rfl, Or.inl rfl⟩, fun h => by simp at h⟩
  | succ i ih =>
    by_cases hi : i < chunks.length
    · have hstep := runLoop_take_succ tok chunks q0 i hi
      have hm1 : (runLoop tok (chunks.take i) q0).accumulated_assistant_response ∈
          accumsList tok chunks q0 := by
        unfold accumsList
        exact List.mem_map.mpr ⟨i, List.mem_range.mpr (by omega), rfl⟩
      have hm2 : (runLoop tok (chunks.take (i + 1)) q0).accumulated_assistant_response ∈
          accumsList tok chunks q0 := by
        unfold accumsList
        exact List.mem_map.mpr ⟨i + 1, List.mem_range.mpr (by omega), rfl⟩
      have hpre : (runLoop tok (chunks.take i) q0).accumulated_assistant_response.data <+:
          (runLoop tok (chunks.take (i + 1)) q0).accumulated_assistant_response.data := by
        rw [hstep]
        exact loopStep_acc_extends tok _ _
      have hsl := htok.1 _ hm1 _ hm2 hpre
      exact dispatchInv_loopStep tok _ (chunks.get ⟨i, hi⟩) _ hstep.symm ih
        hsl.1 hsl.2 (htok.2 _ hm2)
    · have hba : chunks.take (i + 1) = chunks.take i := by
        rw [List.take_of_length_le (by omega), List.take_of_length_le (by omega)]
      rw [hba]
      exact ih

/-- C2 (amended): at every point during the processing of the delta
stream, the sequence of sentences already sent to TTS is a prefix, in
order, of the sentence tokenization of the final accumulated assistant
response text — for every tokenizer satisfying the stability assumptions
on this stream's accumulation points.  (The stream-completion half of the
original claim — that every sentence of the final tokenization is
eventually dispatched — is false on the code; see the counterexample.) -/
theorem c2_amended_dispatched_initial_segment (tok : String → List String)
    (chunks : List Chunk) (q0 : List String) (i : Nat)
    (htok : TokOk tok (accumsList tok chunks q0)) :
    (runLoop tok (chunks.take i) q0).dispatched <+:
      tok ((runLoop tok chunks q0).accumulated_assistant_response) := by
  have hmono : (runLoop tok (chunks.take i) q0).dispatched <+:
      (runLoop tok chunks q0).dispatched := by
    have hsplit : runLoop tok chunks q0 =
        (chunks.drop i).foldl (loopStep tok) (runLoop tok (chunks.take i) q0) := by
      unfold runLoop
      conv_lhs => rw [← List.take_append_drop i chunks]
      rw [List.foldl_append]
    rw [hsplit]
    exact foldl_dispatched_mono tok _ _
  have hInv := dispatchInv_run tok chunks q0 htok chunks.length
  rw [List.take_length] at hInv
  obtain ⟨-, hF, hT⟩ := hInv
  cases hb : (runLoop tok chunks q0).assistant_response_end_reached
  · obtain ⟨hdEq, -⟩ := hF hb
    refine hmono.trans ?_
    rw [hdEq]
    exact List.take_prefix _ _
  · obtain ⟨hdEq, -⟩ := hT hb
    refine hmono.trans ?_
    rw [hdEq]
    exact List.take_prefix _ _

/-- C2 witness: a five-delta stream processed up to its fourth delta: the
tokenizer stability assumptions hold on the accumulation points and the
dispatched sentences are a prefix of the final tokenization. -/
theorem c2_witness :
    TokOk naiveSentenceSplit (accumsList naiveSentenceSplit
      [pcChunk1, pcChunk2, pcChunk3a, pcChunk3b, pcChunk3c] []) ∧
    (runLoop naiveSentenceSplit
      ([pcChunk1, pcChunk2, pcChunk3a, pcChunk3b, pcChunk3c].take 4) []).dispatched <+:
      naiveSentenceSplit ((runLoop naiveSentenceSplit
        [pcChunk1, pcChunk2, pcChunk3a, pcChunk3b, pcChunk3c]
        []).accumulated_assistant_response) :=
  ⟨by decide, c2_amended_dispatched_initial_segment naiveSentenceSplit
    [pcChunk1, pcChunk2, pcChunk3a, pcChunk3b, pcChunk3c] [] 4 (by decide)⟩

/-- C2 counterexample: the spec's own scenario — the two-delta stream
`'{"outputs":{"assistant_response":"Hi there. '` then `'How are you?"}}'` —
produces zero synthesis calls, not two (the deltas that make the shape
known and that reach the response start are dropped from the assistant
text); and on a three-delta stream whose last delta carries three
sentences, the stream ends with only the first sentence dispatched, so the
dispatched sentences are not all of the final tokenization. -/
theorem c2_counterexample :
    (runLoop naiveSentenceSplit [scChunk1, scChunk2] []).dispatched = [] ∧
    (runLoop naiveSentenceSplit [scChunk1, scChunk2] []).accumulated_assistant_response = "" ∧
    naiveSentenceSplit "Hi there. How are you?" = ["Hi there.", "How are you?"] ∧
    (runLoop naiveSentenceSplit [pcChunk1, pcChunk2, pcChunk3]
      []).assistant_response_end_reached = true ∧
    (runLoop naiveSentenceSplit [pcChunk1, pcChunk2, pcChunk3] []).dispatched = ["Hello."] ∧
    naiveSentenceSplit ((runLoop naiveSentenceSplit [pcChunk1, pcChunk2, pcChunk3]
      []).accumulated_assistant_response) = ["Hello.", "World.", "Bye.", "\"\x7d\x7d"] ∧
    (runLoop naiveSentenceSplit [pcChunk1, pcChunk2, pcChunk3] []).dispatched ≠
      naiveSentenceSplit ((runLoop naiveSentenceSplit [pcChunk1, pcChunk2, pcChunk3]
        []).accumulated_assistant_response) := by
  decide

/-- C4 (amended): on every growth of the accumulated text, at most one
newly completed, not-yet-dispatched sentence is synthesized and enqueued —
the dispatched trace grows by at most one element per delta, already
dispatched sentences are never re-dispatched or reordered; a delta that
completes several new sentences leaves the extra ones undispatched in that
step (contrary to the original claim; see the counterexample). -/
theorem c4_amended_one_dispatch_per_delta (tok : String → List String)
    (st : LoopState) (c : Chunk) :
    st.dispatched <+: (loopStep tok st c).dispatched ∧
    (loopStep tok st c).dispatched.length ≤ st.dispatched.length + 1 :=
  loopStep_dispatched_mono tok st c

/-- C4 counterexample: a single delta (`"A. B. C"`) that completes two new
sentences while the stream continues: only `"A."` is dispatched in that
step; `"B."` is complete but left undispatched. -/
theorem c4_counterexample :
    (runLoop naiveSentenceSplit [pcChunk1, pcChunk2, pcChunkMulti] []).dispatched =
      ["A."] ∧
    naiveSentenceSplit ((runLoop naiveSentenceSplit [pcChunk1, pcChunk2, pcChunkMulti]
      []).accumulated_assistant_response) = ["A.", "B.", "C"] ∧
    ¬("B." ∈ (runLoop naiveSentenceSplit [pcChunk1, pcChunk2, pcChunkMulti]
      []).dispatched) := by
  decide

/-- C5: once the pipeline is read as `'false'`/`'cancelled'` at a per-chunk
check, the rest of the stream is abandoned: no sentence past that point is
synthesized or dispatched, the committed message history is exactly as it
was before the call, no structured decision is parsed, the handler returns
early, and — since a never-confirmed turn never triggered eager playback —
nothing was played; the `FALSE_END` handler additionally clears the queued
audio (so the queued audio of the turn is never played) while leaving both
message histories unchanged. -/
theorem c5_invalidation_abandons_stream (tok : String → List String)
    (im : IMState) (text : String) (pre : List Chunk) (c : Chunk)
    (post : List Chunk) (pstart pend : PipeRead)
    (hstart : invalidRead pstart = false)
    (hc : invalidRead c.pstate = true) :
    (handleTranscription tok im text pstart (pre ++ c :: post) pend).dispatched =
      (runLoop tok pre im.queued_audio).dispatched ∧
    (handleTranscription tok im text pstart (pre ++ c :: post) pend).messages =
      im.messages ∧
    (handleTranscription tok im text pstart (pre ++ c :: post) pend).parsed = none ∧
    (handleTranscription tok im text pstart (pre ++ c :: post) pend).earlyReturn = true ∧
    ((∀ ch ∈ pre, ch.pstate ≠ some .confirmed) →
      (handleTranscription tok im text pstart (pre ++ c :: post) pend).played = []) ∧
    (handleFalseEnd im).queued_audio = [] ∧
    (handleFalseEnd im).messages = im.messages ∧
    (handleFalseEnd im).messages_tentative = im.messages_tentative := by
  obtain ⟨hd, hq, hp, hax⟩ := runLoop_invalid_cut tok pre c post im.queued_audio hc
  have hres : handleTranscription tok im text pstart (pre ++ c :: post) pend =
      { messages := im.messages
        messages_tentative := im.messages ++ [⟨.user, text⟩]
        json_processed := im.json_processed
        current_response := im.current_response
        queued_audio := (runLoop tok (pre ++ c :: post) im.queued_audio).queued_audio
        played := (runLoop tok (pre ++ c :: post) im.queued_audio).played
        dispatched := (runLoop tok (pre ++ c :: post) im.queued_audio).dispatched
        parsed := none
        earlyReturn := true } := by
    simp only [handleTranscription, hstart]
    rw [if_neg (by simp), if_pos hax]
  rw [hres]
  refine ⟨hd, rfl, rfl, rfl, ?_, rfl, rfl, rfl⟩
  intro hconf
  show (runLoop tok (pre ++ c :: post) im.queued_audio).played = []
  rw [hp]
  show (pre.foldl (loopStep tok) (initLoop im.queued_audio)).played = []
  rw [foldl_played tok pre (initLoop im.queued_audio) hconf]
  rfl

/-- C5 witness: a stream whose fourth chunk reads an invalidated pipeline:
only the sentence completed before that point is dispatched, the remaining
deltas are ignored, and nothing is committed, parsed or played. -/
theorem c5_witness :
    invalidRead (Chunk.pstate ⟨some "ld. ", some .pfalse⟩) = true ∧
    (handleTranscription naiveSentenceSplit imDemo "hi" none
      ([pcChunk1, pcChunk2, pcChunk3a] ++ (⟨some "ld. ", some .pfalse⟩ : Chunk) ::
        [⟨some "Bye.\"\x7d\x7d", none⟩]) none).dispatched = [] ∧
    (handleTranscription naiveSentenceSplit imDemo "hi" none
      ([pcChunk1, pcChunk2, pcChunk3a] ++ (⟨some "ld. ", some .pfalse⟩ : Chunk) ::
        [⟨some "Bye.\"\x7d\x7d", none⟩]) none).messages = [] ∧
    (handleTranscription naiveSentenceSplit imDemo "hi" none
      ([pcChunk1, pcChunk2, pcChunk3a] ++ (⟨some "ld. ", some .pfalse⟩ : Chunk) ::
        [⟨some "Bye.\"\x7d\x7d", none⟩]) none).played = [] := by
  have h := c5_invalidation_abandons_stream naiveSentenceSplit imDemo "hi"
    [pcChunk1, pcChunk2, pcChunk3a] ⟨some "ld. ", some .pfalse⟩
    [⟨some "Bye.\"\x7d\x7d", none⟩] none none rfl rfl
  refine ⟨rfl, ?_, ?_, ?_⟩
  · rw [h.1]; decide
  · rw [h.2.1]; rfl
  · exact h.2.2.2.2.1 (by decide)

/-- C7: on completion of the delta stream, a `'confirmed'` pipeline state
promotes the tentative message list to the committed one and parses the
accumulated response for the structured decision, while any other state
leaves the committed messages exactly as they were and parses nothing. -/
theorem c7_promotion_on_confirmed (tok : String → List String) (im : IMState)
    (text : String) (pstart : PipeRead) (chunks : List Chunk) (pend : PipeRead)
    (hstart : invalidRead pstart = false)
    (hab : (runLoop tok chunks im.queued_audio).aborted = false)
    (hex : (runLoop tok chunks im.queued_audio).excepted = false) :
    (pend = some .confirmed →
      (handleTranscription tok im text pstart chunks pend).messages =
        (handleTranscription tok im text pstart chunks pend).messages_tentative ∧
      (handleTranscription tok im text pstart chunks pend).parsed =
        some (runLoop tok chunks im.queued_audio).accumulated_response ∧
      (handleTranscription tok im text pstart chunks pend).json_processed = true) ∧
    (pend ≠ some .confirmed →
      (handleTranscription tok im text pstart chunks pend).messages = im.messages ∧
      (handleTranscription tok im text pstart chunks pend).parsed = none) := by
  have hne : ¬((runLoop tok chunks im.queued_audio).aborted = true ∨
      (runLoop tok chunks im.queued_audio).excepted = true) := by
    simp [hab, hex]
  constructor
  · intro hpend
    simp only [handleTranscription, hstart]
    rw [if_neg (by simp), if_neg hne, if_pos hpend]
    exact ⟨rfl, rfl, rfl⟩
  · intro hpend
    simp only [handleTranscription, hstart]
    rw [if_neg (by simp), if_neg hne, if_neg hpend]
    exact ⟨rfl, rfl⟩

/-- C7 witness: a complete three-delta stream with a confirmed pipeline at
completion: the committed messages equal the tentative ones (user turn plus
assistant text) and the full response is parsed. -/
theorem c7_witness :
    (runLoop naiveSentenceSplit [pcChunk1, pcChunk2, pcChunk3]
      imDemo.queued_audio).aborted = false ∧
    (handleTranscription naiveSentenceSplit imDemo "hi" none
      [pcChunk1, pcChunk2, pcChunk3] (some .confirmed)).messages =
      (handleTranscription naiveSentenceSplit imDemo "hi" none
        [pcChunk1, pcChunk2, pcChunk3] (some .confirmed)).messages_tentative ∧
    (handleTranscription naiveSentenceSplit imDemo "hi" none
      [pcChunk1, pcChunk2, pcChunk3] (some .confirmed)).json_processed = true := by
  have h := c7_promotion_on_confirmed naiveSentenceSplit imDemo "hi" none
    [pcChunk1, pcChunk2, pcChunk3] (some .confirmed) rfl (by decide) (by decide)
  exact ⟨by decide, (h.1 rfl).1, (h.1 rfl).2.2⟩

/-- C9: a playback error tears the sink down (closed, reference cleared) so
it is recreated on the next use, the error does not propagate past that
entry (the call still completes, with the playback-complete signal set),
and a queue flush attempts every queued entry in order — entries after a
failing one are still played — and ends with an empty queue. -/
theorem c9_playback_error_handling (s s2 : AudioProcState) (entry e2 : String)
    (errs : List Bool) (h2 : s2.output_stream = none) :
    (playAudioNow s entry true).output_stream = none ∧
    (∀ b, (playAudioNow s entry b).playback_complete = true) ∧
    (playAudioNow s entry true).written = s.written ∧
    (playAudioNow s2 e2 false).output_stream = some s2.next_stream_id ∧
    (playAudioNow s2 e2 false).written = s2.written ++ [(s2.next_stream_id, e2)] ∧
    (playQueuedAudio s errs).queued_audio = [] ∧
    (playQueuedAudio s errs).plays_attempted = s.plays_attempted + s.queued_audio.length ∧
    (playQueuedAudio s errs).written.map Prod.snd =
      s.written.map Prod.snd ++ keptEntries s.queued_audio errs := by
  refine ⟨?_, ?_, ?_, ?_, ?_, ?_, ?_, ?_⟩
  · cases h : s.output_stream <;> simp [playAudioNow, ensureOutputStream, h]
  · intro b; exact (playAudioNow_effects s entry b).1
  · cases h : s.output_stream <;> simp [playAudioNow, ensureOutputStream, h]
  · simp [playAudioNow, ensureOutputStream, h2]
  · simp [playAudioNow, ensureOutputStream, h2]
  · simp [playQueuedAudio]
  · simp only [playQueuedAudio]
    exact flushGo_plays s.queued_audio errs s
  · simp only [playQueuedAudio]
    exact flushGo_written s.queued_audio errs s

/-- C9 witness: a three-entry queue whose second playback errors: all three
entries are attempted, the first and third are written, and the sink id of
the third write is fresh (the sink was recreated). -/
theorem c9_witness :
    (⟨["a", "b", "c"], some 0, 1, true, [], 0⟩ : AudioProcState).output_stream ≠ none ∧
    (playQueuedAudio ⟨["a", "b", "c"], some 0, 1, true, [], 0⟩ [false, true, false]).queued_audio = [] ∧
    (playQueuedAudio ⟨["a", "b", "c"], some 0, 1, true, [], 0⟩ [false, true, false]).plays_attempted = 3 ∧
    (playQueuedAudio ⟨["a", "b", "c"], some 0, 1, true, [], 0⟩
      [false, true, false]).written.map Prod.snd = ["a", "c"] := by
  have h := c9_playback_error_handling
    ⟨["a", "b", "c"], some 0, 1, true, [], 0⟩
    ⟨[], none, 5, true, [], 0⟩ "x" "y" [false, true, false] rfl
  exact ⟨by decide, h.2.2.2.2.2.1, h.2.2.2.2.2.2.1, by rw [h.2.2.2.2.2.2.2]; decide⟩

/-- C3 (amended): the extraction-policy bounds hold for every buffer state
in which the rolling buffer still reaches back before the segment (its
oldest retained timestamp precedes `start_time`), at least one retained
frame lies after `end_time`, timestamps are sorted, and the back-off is at
least one frame: then the extracted slice is nonempty, its first frame
timestamp is `≤ start_time` and its last frame timestamp is
`> end_time`. -/
theorem c3_amended (times : List Int) (st en : Int) (back : Nat)
    (hsorted : times.Pairwise (· ≤ ·))
    (hne : times ≠ [])
    (hhead : times.getD 0 0 < st)
    (hlastTime : en < times.getD (times.length - 1) 0)
    (hback : 1 ≤ back) :
    saveStartIdx times st back < saveEndIdx times en (saveStartIdx times st back) ∧
    saveEndIdx times en (saveStartIdx times st back) ≤ times.length ∧
    (saveSliceTimes times st en back).head? =
      some (times.getD (saveStartIdx times st back) 0) ∧
    times.getD (saveStartIdx times st back) 0 ≤ st ∧
    (saveSliceTimes times st en back).getLast? =
      some (times.getD (saveEndIdx times en (saveStartIdx times st back) - 1) 0) ∧
    en < times.getD (saveEndIdx times en (saveStartIdx times st back) - 1) 0 := by
  have hlen : 0 < times.length := List.length_pos.mpr hne
  have hsi : saveStartIdx times st back < times.length ∧
      times.getD (saveStartIdx times st back) 0 < st := by
    unfold saveStartIdx
    cases hfi : firstIdxFrom (fun t => decide (st ≤ t)) times with
    | none => exact ⟨hlen, hhead⟩
    | some i =>
      show i - back < times.length ∧ times.getD (i - back) 0 < st
      obtain ⟨hiLen, hpi, hmin⟩ := firstIdxFrom_some hfi
      have hi1 : 1 ≤ i := by
        rcases Nat.eq_zero_or_pos i with rfl | h
        · have hle : st ≤ times.getD 0 0 := of_decide_eq_true hpi
          exact absurd (lt_of_lt_of_le hhead hle) (lt_irrefl _)
        · exact h
      have hsub : i - back ≤ i - 1 := by omega
      have him1 : i - 1 < times.length := by omega
      have hmono : times.getD (i - back) 0 ≤ times.getD (i - 1) 0 :=
        pairwise_le_getD hsorted _ _ hsub him1
      have hm := hmin (i - 1) (by omega)
      have hlt2 : times.getD (i - 1) 0 < st := not_le.mp (of_decide_eq_false hm)
      exact ⟨by omega, lt_of_le_of_lt hmono hlt2⟩
  obtain ⟨hsiLen, hsiLt⟩ := hsi
  have hkidx : times.length - 1 - saveStartIdx times st back <
      (times.drop (saveStartIdx times st back)).length := by
    rw [List.length_drop]; omega
  have hgd : (times.drop (saveStartIdx times st back)).getD
      (times.length - 1 - saveStartIdx times st back) 0 =
      times.getD (times.length - 1) 0 := by
    rw [getD_drop_eq]; congr 1; omega
  have hmemx : (times.drop (saveStartIdx times st back)).getD
      (times.length - 1 - saveStartIdx times st back) 0 ∈
      times.drop (saveStartIdx times st back) := by
    rw [List.getD_eq_getElem?_getD, List.getElem?_eq_getElem hkidx]
    exact List.getElem_mem hkidx
  have hpx : (fun t => decide (en < t)) ((times.drop (saveStartIdx times st back)).getD
      (times.length - 1 - saveStartIdx times st back) 0) = true := by
    rw [hgd]; exact decide_eq_true hlastTime
  have hisSome := @firstIdxFrom_isSome (fun t => decide (en < t)) _ _ hmemx hpx
  cases hfj : firstIdxFrom (fun t => decide (en < t))
      (times.drop (saveStartIdx times st back)) with
  | none => rw [hfj] at hisSome; simp at hisSome
  | some j =>
    obtain ⟨hjLen, hpj, -⟩ := firstIdxFrom_some hfj
    rw [List.length_drop] at hjLen
    have hei : saveEndIdx times en (saveStartIdx times st back) =
        saveStartIdx times st back + j + 1 := by
      unfold saveEndIdx
      rw [hfj]
      exact Nat.min_eq_right (by omega)
    have henj : en < times.getD (saveStartIdx times st back + j) 0 := by
      have hdec : en < (times.drop (saveStartIdx times st back)).getD j 0 :=
        of_decide_eq_true hpj
      rwa [getD_drop_eq] at hdec
    have hgetsi : times.getD (saveStartIdx times st back) 0 =
        times.get ⟨saveStartIdx times st back, hsiLen⟩ := by
      rw [List.getD_eq_getElem?_getD, List.getElem?_eq_getElem hsiLen]
      rfl
    have hslice : saveSliceTimes times st en back =
        (times.drop (saveStartIdx times st back)).take (j + 1) := by
      unfold saveSliceTimes pySlice
      rw [hei]
      congr 1
      omega
    refine ⟨by omega, by omega, ?_, le_of_lt hsiLt, ?_, ?_⟩
    · rw [hslice, List.head?_take, if_neg (Nat.succ_ne_zero j), List.head?_drop,
        List.getElem?_eq_getElem hsiLen, hgetsi]
      rfl
    · have hlt : ((times.drop (saveStartIdx times st back)).take (j + 1)).length = j + 1 := by
        rw [List.length_take, List.length_drop]
        omega
      rw [hslice, List.getLast?_eq_getElem?, hlt]
      have hidx : j + 1 - 1 = j := by omega
      rw [hidx, List.getElem?_take, if_pos (Nat.lt_succ_self j), List.getElem?_drop]
      have hsj : saveStartIdx times st back + j < times.length := by omega
      rw [List.getElem?_eq_getElem hsj, hei]
      have hidx2 : saveStartIdx times st back + j + 1 - 1 = saveStartIdx times st back + j := by
        omega
      rw [hidx2]
      rw [List.getD_eq_getElem?_getD, List.getElem?_eq_getElem hsj]
      rfl
    · rw [hei]
      have hidx2 : saveStartIdx times st back + j + 1 - 1 = saveStartIdx times st back + j := by
        omega
      rw [hidx2]
      exact henj

/-- C3 amended witness: a concrete sorted buffer satisfying the amended
hypotheses. -/
theorem c3_amended_witness :
    ([0, 1, 2, 3, 4, 5, 6, 7, 8, 9] : List Int).Pairwise (· ≤ ·) ∧
    saveSliceTimes [0, 1, 2, 3, 4, 5, 6, 7, 8, 9] 5 7 2 = [3, 4, 5, 6, 7, 8] ∧
    (saveSliceTimes [0, 1, 2, 3, 4, 5, 6, 7, 8, 9] 5 7 2).head? = some 3 ∧
    ((3:Int) ≤ 5) ∧
    (saveSliceTimes [0, 1, 2, 3, 4, 5, 6, 7, 8, 9] 5 7 2).getLast? = some 8 ∧
    ((7:Int) < 8) := by
  have h := c3_amended [0, 1, 2, 3, 4, 5, 6, 7, 8, 9] 5 7 2 (by decide) (by decide)
    (by decide) (by decide) (by decide)
  exact ⟨by decide, by decide, by decide, h.2.2.2.1, by decide, by decide⟩

end Attend
